import Mathlib

/-!
Verification of the DumpToBlender core (src/dtb.py): the recursive-descent
parser, the context tree with style / clip-plane propagation, and the
geometry generator including Sutherland-Hodgman polygon clipping.

Conventions of the embedding:
* Python floats are modelled by rationals (ℚ); decimal literals of the
  source are read exactly (0.999 becomes 999/1000 and so on).
* `mathutils.Vector` 3-vectors are triples ℚ × ℚ × ℚ with componentwise
  arithmetic (the `Prod` instances) and an explicit dot product.
* The quad built by `add_plane` (src/dtb.py lines 245-261) normalizes a
  cross product, which needs a square root; every claim treated here
  quantifies over the polygon being clipped, so the geometry functions
  take the already-built quad as an argument and the clipping / emission
  code (lines 263-274) is embedded verbatim.
* Stateful methods of `BlenderCreator` become functions
  `args → MeshState → MeshState`.
-/

abbrev Vec3 := ℚ × ℚ × ℚ

abbrev Vec4 := ℚ × ℚ × ℚ × ℚ

/-- Dot product of two 3-vectors, as `mathutils.Vector.dot`. -/
def dot (a b : Vec3) : ℚ := a.1 * b.1 + a.2.1 * b.2.1 + a.2.2 * b.2.2

/-- A plane given by normal and distance; this is the data of a
`PlanePrimitive` (src/dtb.py lines 373-377), which is also what
`Context.clip_planes` stores. -/
structure PPlane where
  normal : Vec3
  distance : ℚ
deriving DecidableEq

/-- The vertex/edge/face lists accumulated by `BlenderCreator.create`
(src/dtb.py lines 129-131). -/
structure MeshState where
  verts : List Vec3
  edges : List (ℕ × ℕ)
  faces : List (List ℕ)
deriving DecidableEq

def emptyMesh : MeshState := ⟨[], [], []⟩

/-- `BlenderCreator.add_point` (src/dtb.py lines 179-199): an octahedron of
6 vertices and 8 triangular faces around `position`. -/
def add_point (point_size : ℚ) (position : Vec3) (st : MeshState) : MeshState :=
  let index := st.verts.length
  { verts := st.verts ++ [
      position + ((0 : ℚ), (0 : ℚ), -point_size),
      position + (-point_size, -point_size, (0 : ℚ)),
      position + (point_size, -point_size, (0 : ℚ)),
      position + (point_size, point_size, (0 : ℚ)),
      position + (-point_size, point_size, (0 : ℚ)),
      position + ((0 : ℚ), (0 : ℚ), point_size)],
    edges := st.edges,
    faces := st.faces ++ [
      [index, index + 1, index + 2],
      [index, index + 2, index + 3],
      [index, index + 3, index + 4],
      [index, index + 4, index + 1],
      [index + 5, index + 1, index + 4],
      [index + 5, index + 4, index + 3],
      [index + 5, index + 3, index + 2],
      [index + 5, index + 2, index + 1]] }

/-- `BlenderCreator.add_line` (src/dtb.py lines 201-205). -/
def add_line (from_position to_position : Vec3) (st : MeshState) : MeshState :=
  let index := st.verts.length
  { verts := st.verts ++ [from_position, to_position],
    edges := st.edges ++ [(index, index + 1)],
    faces := st.faces }

/-- `BlenderCreator.add_vector` (src/dtb.py lines 207-211). -/
def add_vector (position direction : Vec3) (st : MeshState) : MeshState :=
  let index := st.verts.length
  { verts := st.verts ++ [position, position + direction],
    edges := st.edges ++ [(index, index + 1)],
    faces := st.faces }

/-- One pass of `BlenderCreator._clip_face`'s outer loop (src/dtb.py
lines 214-240): clip the polygon `verts` against one plane.  The python
loop appends to `new_verts`, which the fold over the index range mirrors. -/
def clipOnePlane (clip : PPlane) (clip_side : String) (verts : List Vec3) : List Vec3 :=
  let clip_normal := if clip_side = "positive" then -clip.normal else clip.normal
  let clip_distance := if clip_side = "positive" then -clip.distance else clip.distance
  (List.range verts.length).foldl (fun new_verts cur_index =>
    let cur_vert := verts.getD cur_index ((0 : ℚ), (0 : ℚ), (0 : ℚ))
    let prev_vert := verts.getD ((cur_index + verts.length - 1) % verts.length)
      ((0 : ℚ), (0 : ℚ), (0 : ℚ))
    let dist_cur := dot clip_normal cur_vert + clip_distance
    let dist_prev := dot clip_normal prev_vert + clip_distance
    if 0 ≤ dist_cur ∧ 0 ≤ dist_prev then
      new_verts ++ [cur_vert]
    else if 0 ≤ dist_cur ∧ dist_prev < 0 then
      let lerp := -dist_prev / (dist_cur - dist_prev)
      new_verts ++ [prev_vert + lerp • (cur_vert - prev_vert), cur_vert]
    else if dist_cur < 0 ∧ 0 ≤ dist_prev then
      let lerp := -dist_prev / (dist_cur - dist_prev)
      new_verts ++ [prev_vert + lerp • (cur_vert - prev_vert)]
    else
      new_verts) []

/-- `BlenderCreator._clip_face` (src/dtb.py lines 213-242): fold the
one-plane pass over the clip planes in order. -/
def clip_face (verts : List Vec3) (clip_planes : List PPlane) (clip_side : String) :
    List Vec3 :=
  clip_planes.foldl (fun vs clip => clipOnePlane clip clip_side vs) verts

/-- Specification-side rendering of one Sutherland-Hodgman pass, written
from the spec's words (spec.md section 4.5 / claim C1): classify each
vertex by signed distance, insert an interpolated vertex on each sign
change, keep the vertices with non-negative distance.  To be compared
against `clipOnePlane`, which is the code's version. -/
def clipOnePlaneSpec (clip : PPlane) (clip_side : String) (verts : List Vec3) : List Vec3 :=
  let clip_normal := if clip_side = "positive" then -clip.normal else clip.normal
  let clip_distance := if clip_side = "positive" then -clip.distance else clip.distance
  (List.range verts.length).foldl (fun acc cur_index =>
    let cur_vert := verts.getD cur_index ((0 : ℚ), (0 : ℚ), (0 : ℚ))
    let prev_vert := verts.getD ((cur_index + verts.length - 1) % verts.length)
      ((0 : ℚ), (0 : ℚ), (0 : ℚ))
    let dist_cur := dot clip_normal cur_vert + clip_distance
    let dist_prev := dot clip_normal prev_vert + clip_distance
    let crossing := (0 ≤ dist_prev ∧ dist_cur < 0) ∨ (dist_prev < 0 ∧ 0 ≤ dist_cur)
    acc ++
      (if crossing then
        [prev_vert + (-dist_prev / (dist_cur - dist_prev)) • (cur_vert - prev_vert)]
      else []) ++
      (if 0 ≤ dist_cur then [cur_vert] else [])) []

/-- Specification-side `_clip_face`: one spec pass per clip plane. -/
def clipFaceSpec (verts : List Vec3) (clip_planes : List PPlane) (clip_side : String) :
    List Vec3 :=
  clip_planes.foldl (fun vs clip => clipOnePlaneSpec clip clip_side vs) verts

/-- The clip-plane filter of `BlenderCreator.add_plane` (src/dtb.py
lines 264-268): keep `p` when `p.normal · normal < 0.999` or
`|p.distance - distance| > 0.001`. -/
def clipFilter (clip_planes : List PPlane) (normal : Vec3) (distance : ℚ) : List PPlane :=
  clip_planes.filter (fun p =>
    decide (dot p.normal normal < 999 / 1000 ∨ 1 / 1000 < |p.distance - distance|))

/-- `BlenderCreator.add_plane` from the clip step on (src/dtb.py
lines 263-274), taking the already-built quad (lines 245-261 build it with
a normalized cross product, which the claims abstract over by quantifying
over the polygon).  `clip_side` is the context's resolved style value. -/
def addPlaneWithQuad (quad : List Vec3) (normal : Vec3) (distance : ℚ)
    (ctx_clip_planes : List PPlane) (clip_side : String) (st : MeshState) : MeshState :=
  let clip_planes := clipFilter ctx_clip_planes normal distance
  let verts := clip_face quad clip_planes clip_side
  if verts = [] then st
  else
    let index := st.verts.length
    { verts := st.verts ++ verts,
      edges := st.edges,
      faces := st.faces ++ [(List.range verts.length).map (fun i => index + i)] }

/-- `BlenderCreator.add_aabb` (src/dtb.py lines 276-297): 8 corners and
12 wireframe edges. -/
def add_aabb (aabb_min aabb_max : Vec3) (st : MeshState) : MeshState :=
  let index := st.verts.length
  { verts := st.verts ++ [
      (aabb_min.1, aabb_min.2.1, aabb_min.2.2),
      (aabb_max.1, aabb_min.2.1, aabb_min.2.2),
      (aabb_max.1, aabb_max.2.1, aabb_min.2.2),
      (aabb_min.1, aabb_max.2.1, aabb_min.2.2),
      (aabb_min.1, aabb_min.2.1, aabb_max.2.2),
      (aabb_max.1, aabb_min.2.1, aabb_max.2.2),
      (aabb_max.1, aabb_max.2.1, aabb_max.2.2),
      (aabb_min.1, aabb_max.2.1, aabb_max.2.2)],
    edges := st.edges ++ [
      (index + 0, index + 1), (index + 1, index + 2),
      (index + 2, index + 3), (index + 3, index + 0),
      (index + 4, index + 5), (index + 5, index + 6),
      (index + 6, index + 7), (index + 7, index + 4),
      (index + 0, index + 4), (index + 1, index + 5),
      (index + 2, index + 6), (index + 3, index + 7)],
    faces := st.faces }

/-- The frustum-plane vectors computed by `BlenderCreator.add_projection`
(src/dtb.py lines 299-308) from the row-major 4x4 matrix `m`. -/
def projectionPlanes (m : List ℚ) : List Vec4 :=
  let g := fun i => m.getD i (0 : ℚ)
  let col0 : Vec4 := (g 0, g 4, g 8, g 12)
  let col1 : Vec4 := (g 1, g 5, g 9, g 13)
  let col2 : Vec4 := (g 2, g 6, g 10, g 14)
  let col3 : Vec4 := (g 3, g 7, g 11, g 15)
  [col0 - col3, -col0 - col3, col1 - col3, -col1 - col3, col2 - col3, -col2 - col3]

/-- `BlenderCreator.add_projection` (src/dtb.py lines 299-308): the planes
are computed into a local that is never used; the mesh lists are untouched. -/
def add_projection (m : List ℚ) (st : MeshState) : MeshState :=
  let _planes := projectionPlanes m
  st

/-!
The parser (src/dtb.py lines 9-109).  The cursor state mirrors
`Parser.__init__`; `advance` reproduces the incremental line/column loop
of lines 41-51.  Regex matching is hand-translated: each of the class
patterns (WHITESPACE_OR_COMMENT, IDENT, STRING, FLOAT, parens) matches
greedily at the cursor exactly as `re.match` does.  Bounded loops of the
source become structurally recursive functions on an explicit iteration
bound that is always sufficient, because every loop iteration consumes at
least one character (so the kernel can evaluate them on concrete input).
-/

structure PState where
  source : List Char
  pos : ℕ
  line_pos : ℕ
  line : ℕ
  col : ℕ
deriving DecidableEq

/-- `str.find('\n', a, b)` of python (src/dtb.py line 46): index of the
first newline at position in `[a, b)`, or none.  The bound argument makes
the scan structurally recursive. -/
def findNlAux (s : List Char) (b : ℕ) : ℕ → ℕ → Option ℕ
  | 0, _ => none
  | fuel + 1, a =>
    if a < b ∧ a < s.length then
      (if s.getD a ' ' = '\n' then some a else findNlAux s b fuel (a + 1))
    else none

def findNl (s : List Char) (a b : ℕ) : Option ℕ := findNlAux s b (b - a) a

/-- The newline-scanning loop of `Parser.advance` (src/dtb.py lines
45-50): repeatedly find the next newline before `stop`, moving
`line_pos` past it and bumping `line`. -/
def advLoopAux (s : List Char) (stop : ℕ) : ℕ → ℕ → ℕ → ℕ × ℕ
  | 0, line_pos, line => (line_pos, line)
  | fuel + 1, line_pos, line =>
    match findNl s line_pos stop with
    | none => (line_pos, line)
    | some j => advLoopAux s stop fuel (j + 1) (line + 1)

/-- `Parser.advance` (src/dtb.py lines 41-51). -/
def advance (num : ℕ) (st : PState) : PState :=
  let pos := st.pos + num
  let lp := advLoopAux st.source pos (pos + 1 - st.line_pos) st.line_pos st.line
  { source := st.source, pos := pos, line_pos := lp.1, line := lp.2,
    col := pos - lp.1 + 1 }

/-- Python `\s` on ASCII input. -/
def isPySpace (c : Char) : Bool :=
  c == ' ' || c == '\t' || c == '\n' || c == '\r' || c == '\x0b' || c == '\x0c'

/-- Python `\w` on ASCII input: letters, digits, underscore. -/
def isWordChar (c : Char) : Bool := c.isAlphanum || c == '_'

/-- Length matched by `WHITESPACE_OR_COMMENT` (src/dtb.py line 13) at the
cursor: a maximal nonempty run of whitespace, else a `#` comment running
to end of line, else no match (length 0). -/
def wsCommentLen (l : List Char) : ℕ :=
  match l with
  | [] => 0
  | c :: rest =>
    if isPySpace c then (l.takeWhile isPySpace).length
    else if c = '#' then (rest.takeWhile (fun d => !(d == '\n'))).length + 1
    else 0

/-- The loop of `Parser.skip_whitespace_and_comments` (src/dtb.py lines
53-59). -/
def skipWsAux : ℕ → PState → PState
  | 0, st => st
  | fuel + 1, st =>
    let m := wsCommentLen (st.source.drop st.pos)
    if m = 0 then st else skipWsAux fuel (advance m st)

def skip_whitespace_and_comments (st : PState) : PState :=
  skipWsAux (st.source.length + 1 - st.pos) st

/-- The expectation descriptions passed to `Parser.expect` by the
`expect_*` helpers (src/dtb.py lines 86, 90, 97, 101, 108). -/
def descIdent : String := "an identifier"

def descString : String := "a string"

def descFloat : String := "a floating point number"

def descEnumOptions : String := "one of the options"

def descRparen : String := ")"

instance {ε α : Type} [DecidableEq ε] [DecidableEq α] : DecidableEq (Except ε α) :=
  fun a b =>
  match a, b with
  | .ok x, .ok y => if h : x = y then .isTrue (by rw [h]) else .isFalse (by simp [h])
  | .error x, .error y => if h : x = y then .isTrue (by rw [h]) else .isFalse (by simp [h])
  | .ok _, .error _ => .isFalse (by simp)
  | .error _, .ok _ => .isFalse (by simp)

/-- The data of a `ParserError` message (src/dtb.py lines 30-31 format
`filename:line,col: message`; the filename is the constant `<source>`
here, so the embedding keeps line, column and the message's content). -/
inductive EKind where
  | expected (description : String)
  | notOneOf (value : String)
  | unknownPrimitive (value : String)
  | unbalancedClose
  | unbalancedOpen (line col : ℕ)
deriving DecidableEq

/-- Exceptions escaping the parser: `syn` is `ParserError` with the
parser's current 1-based line and column; `valueError` is a python
`ValueError` escaping uncaught (as from `float()` on line 101). -/
inductive PErr where
  | syn (line col : ℕ) (kind : EKind)
  | valueError
deriving DecidableEq

/-- Match of `Parser.IDENT` = `\w+|{|}` (src/dtb.py line 19) at the
cursor: a maximal nonempty run of word characters, else a single brace.
Returns consumed length and the value group. -/
def identMatch (l : List Char) : Option (ℕ × String) :=
  let w := l.takeWhile isWordChar
  if w.length ≠ 0 then some (w.length, String.mk w)
  else
    match l with
    | '\x7b' :: _ => some (1, "\x7b")
    | '\x7d' :: _ => some (1, "\x7d")
    | _ => none

/-- Match of `Parser.STRING` (src/dtb.py line 16): a single-quoted string
with no embedded quote; the value group is the interior. -/
def stringMatch (l : List Char) : Option (ℕ × String) :=
  match l with
  | '\'' :: rest =>
    let inner := rest.takeWhile (fun c => !(c == '\''))
    (match rest.drop inner.length with
     | '\'' :: _ => some (inner.length + 2, String.mk inner)
     | _ => none)
  | _ => none

/-- The mantissa part `\d+(\.\d*)?|\.\d+` of `Parser.FLOAT` (src/dtb.py
lines 17-18), matched greedily: digits with an optional dot and further
digits, or a bare dot with at least one digit. -/
def numCore (l : List Char) : Option (List Char) :=
  let ds := l.takeWhile Char.isDigit
  if ds.length = 0 then
    match l with
    | '.' :: rest =>
      let fs := rest.takeWhile Char.isDigit
      if fs.length = 0 then none else some ('.' :: fs)
    | _ => none
  else
    match l.drop ds.length with
    | '.' :: rest => some (ds ++ '.' :: rest.takeWhile Char.isDigit)
    | _ => some ds

/-- The optional exponent `([eE][+-]?\d+)?` of `Parser.FLOAT`: consumed
only when a complete exponent is present, else matches empty. -/
def expPart (l : List Char) : List Char :=
  match l with
  | c :: rest =>
    if c = 'e' ∨ c = 'E' then
      let sn : List Char := match rest with
        | d :: _ => if d = '+' ∨ d = '-' then [d] else []
        | [] => []
      let ds := (rest.drop sn.length).takeWhile Char.isDigit
      (if ds.length = 0 then [] else c :: (sn ++ ds))
    else []
  | [] => []

/-- Match of `Parser.FLOAT` = `[+-]?\ *(\d+(\.\d*)?|\.\d+)([eE][+-]?\d+)?`
(src/dtb.py lines 17-18): optional sign, any number of literal spaces,
the mantissa, an optional exponent.  When the mantissa fails the whole
pattern fails (dropping the sign cannot help, since the sign character
matches neither the space run nor the mantissa). -/
def floatMatch (l : List Char) : Option (List Char) :=
  let sgn : List Char := match l with
    | c :: _ => if c = '+' ∨ c = '-' then [c] else []
    | [] => []
  let r1 := l.drop sgn.length
  let sp := r1.takeWhile (fun c => c == ' ')
  let r2 := r1.drop sp.length
  match numCore r2 with
  | none => none
  | some core =>
    let r3 := r2.drop core.length
    some (sgn ++ sp ++ core ++ expPart r3)

def digitsVal (l : List Char) : ℕ :=
  l.foldl (fun n c => n * 10 + (c.toNat - 48)) 0

/-- An exponent suffix in python `float()` literal syntax. -/
def parseExp (l : List Char) : Option (ℤ × List Char) :=
  match l with
  | c :: rest =>
    if c = 'e' ∨ c = 'E' then
      let p : Bool × List Char := match rest with
        | '+' :: rr => (false, rr)
        | '-' :: rr => (true, rr)
        | _ => (false, rest)
      let ds := p.2.takeWhile Char.isDigit
      (if ds.length = 0 then none
       else some (if p.1 then -(digitsVal ds : ℤ) else (digitsVal ds : ℤ),
                  p.2.drop ds.length))
    else none
  | [] => none

/-- Python's `float()` conversion (src/dtb.py line 101) on the strings the
FLOAT regex can produce: sign, integer part, optional fraction, optional
exponent — and, crucially, no spaces anywhere inside; on any other string
it raises `ValueError`, modelled by `none`.  The denoted value is exact
decimal reading, built as one integer quotient `mkRat` so it is
kernel-computable: with fractional part `f` of length `k` and decimal
exponent `e`, the value is `± (ip·10^k + f) · 10^e / 10^k`. -/
def pyFloat (l : List Char) : Option ℚ :=
  let p1 : Bool × List Char := match l with
    | '+' :: r => (false, r)
    | '-' :: r => (true, r)
    | _ => (false, l)
  let ip := p1.2.takeWhile Char.isDigit
  let r2 := p1.2.drop ip.length
  let p2 : List Char × List Char × Bool := match r2 with
    | '.' :: r =>
      let f := r.takeWhile Char.isDigit
      (f, r.drop f.length, ip.length != 0 || f.length != 0)
    | _ => ([], r2, ip.length != 0)
  if p2.2.2 = false then none
  else
    let num : ℤ := ((digitsVal ip * 10 ^ p2.1.length + digitsVal p2.1 : ℕ) : ℤ)
    let den : ℕ := 10 ^ p2.1.length
    let snum : ℤ := if p1.1 then -num else num
    match p2.2.1 with
    | [] => some (mkRat snum den)
    | rest =>
      match parseExp rest with
      | some er =>
        (if er.2.length = 0 then
          some (if 0 ≤ er.1 then mkRat (snum * ((10 ^ er.1.toNat : ℕ) : ℤ)) den
                else mkRat snum (den * 10 ^ (-er.1).toNat))
         else none)
      | none => none

/-- `Parser.expect_ident` (src/dtb.py lines 84-86), via `accept`
(lines 61-74): match, advance, skip trailing whitespace/comments. -/
def expect_ident (st : PState) : Except PErr (String × PState) :=
  match identMatch (st.source.drop st.pos) with
  | some nv => .ok (nv.2, skip_whitespace_and_comments (advance nv.1 st))
  | none => .error (.syn st.line st.col (.expected descIdent))

/-- `Parser.expect_string` (src/dtb.py lines 95-97). -/
def expect_string (st : PState) : Except PErr (String × PState) :=
  match stringMatch (st.source.drop st.pos) with
  | some nv => .ok (nv.2, skip_whitespace_and_comments (advance nv.1 st))
  | none => .error (.syn st.line st.col (.expected descString))

/-- `Parser.expect_float` (src/dtb.py lines 99-101): match the FLOAT
regex (a failure is a positioned `ParserError`), then convert the matched
text with `float()` — whose own failure is an uncaught `ValueError`. -/
def expect_float (st : PState) : Except PErr (ℚ × PState) :=
  match floatMatch (st.source.drop st.pos) with
  | some m =>
    let st' := skip_whitespace_and_comments (advance m.length st)
    (match pyFloat m with
     | some q => .ok (q, st')
     | none => .error .valueError)
  | none => .error (.syn st.line st.col (.expected descFloat))

/-- `Parser.expect_enum` (src/dtb.py lines 88-93). -/
def expect_enum (options : List String) (st : PState) : Except PErr (String × PState) :=
  match identMatch (st.source.drop st.pos) with
  | some nv =>
    let st' := skip_whitespace_and_comments (advance nv.1 st)
    (if nv.2 ∈ options then .ok (nv.2, st')
     else .error (.syn st'.line st'.col (.notOneOf nv.2)))
  | none => .error (.syn st.line st.col (.expected descEnumOptions))

/-- `accept(Parser.LPAREN)` (src/dtb.py line 105). -/
def accept_lparen (st : PState) : Option PState :=
  match st.source.drop st.pos with
  | '(' :: _ => some (skip_whitespace_and_comments (advance 1 st))
  | _ => none

/-- `expect(Parser.RPAREN, ')')` (src/dtb.py line 108). -/
def expect_rparen (st : PState) : Except PErr PState :=
  match st.source.drop st.pos with
  | ')' :: _ => .ok (skip_whitespace_and_comments (advance 1 st))
  | _ => .error (.syn st.line st.col (.expected descRparen))

/-- The `dim` floats read by `expect_vector`'s comprehension
(src/dtb.py line 106), in order. -/
def expectFloats : ℕ → PState → Except PErr (List ℚ × PState)
  | 0, st => .ok ([], st)
  | d + 1, st =>
    match expect_float st with
    | .error e => .error e
    | .ok qst =>
      match expectFloats d qst.2 with
      | .error e => .error e
      | .ok qs => .ok (qst.1 :: qs.1, qs.2)

/-- `Parser.expect_vector` (src/dtb.py lines 103-109): an optional
leading parenthesis, `dim` floats, and a mandatory closing parenthesis
exactly when the opening one was present. -/
def expect_vector (dim : ℕ) (st : PState) : Except PErr (List ℚ × PState) :=
  match accept_lparen st with
  | none => expectFloats dim st
  | some st1 =>
    match expectFloats dim st1 with
    | .error e => .error e
    | .ok vst =>
      match expect_rparen vst.2 with
      | .error e => .error e
      | .ok st3 => .ok (vst.1, st3)

/-- `Parser.__init__` (src/dtb.py lines 21-28): cursor at offset 0,
line 1, column 1, then an initial whitespace/comment skip. -/
def initP (source : String) : PState :=
  skip_whitespace_and_comments ⟨source.toList, 0, 0, 1, 1⟩

/-- Reference cursor state at offset `p`: the line is one more than the
newlines before `p`, `line_pos` is the start of the current line, and the
column is the offset since that start, 1-based. -/
def nlCount (s : List Char) (p : ℕ) : ℕ := (s.take p).count '\n'

def lineStart (s : List Char) : ℕ → ℕ
  | 0 => 0
  | q + 1 => if q < s.length ∧ s.getD q ' ' = '\n' then q + 1 else lineStart s q

def refState (s : List Char) (p : ℕ) : PState :=
  ⟨s, p, lineStart s p, 1 + nlCount s p, p - lineStart s p + 1⟩

/-- Value and unconsumed remainder of `expect_float` on a fresh parser. -/
def floatAndRest (source : String) : Option (ℚ × String) :=
  match expect_float (initP source) with
  | .ok qst => some (qst.1, String.mk (qst.2.source.drop qst.2.pos))
  | .error _ => none

/-- Value and reported line/column of `expect_ident` on a fresh parser. -/
def identLineCol (source : String) : Option (String × ℕ × ℕ) :=
  match expect_ident (initP source) with
  | .ok vst => some (vst.1, vst.2.line, vst.2.col)
  | .error _ => none

/-- Value of `expect_vector dim` on a fresh parser. -/
def vecValue (dim : ℕ) (source : String) : Except PErr (List ℚ) :=
  (expect_vector dim (initP source)).map (fun r => r.1)

/-!
The context tree and the top-level parse loop (src/dtb.py lines 311-341,
402-494).  `Context` objects are mutable in python; here a context is a
pure tree value, the keyword handlers return the updated context, and the
scope stack stores the snapshot of each suspended parent (a finished
child is attached to its parent when its closing brace is read, which
yields the same child order because scopes nest).  Python dicts become
association lists with one entry per key, in insertion order.
-/

inductive StyleVal where
  | num (q : ℚ)
  | str (s : String)
deriving DecidableEq

inductive Prim where
  | point (position : List ℚ)
  | line (from_position to_position : List ℚ)
  | vec (position direction : List ℚ)
  | plane (normal : List ℚ) (distance : ℚ)
  | aabb (aabb_min aabb_max : List ℚ)
  | projection (matrix : List ℚ)
deriving DecidableEq

/-- `Context` (src/dtb.py lines 311-318) without the non-owning `parent`
back-reference, which nothing in parsing or propagation reads. -/
inductive PCtx where
  | mk (label : String) (style : List (String × StyleVal))
      (clip_planes : List PPlane) (prims : List Prim) (children : List PCtx)

def PCtx.label : PCtx → String
  | .mk l _ _ _ _ => l

def PCtx.style : PCtx → List (String × StyleVal)
  | .mk _ s _ _ _ => s

def PCtx.clip_planes : PCtx → List PPlane
  | .mk _ _ c _ _ => c

def PCtx.prims : PCtx → List Prim
  | .mk _ _ _ p _ => p

def PCtx.children : PCtx → List PCtx
  | .mk _ _ _ _ c => c

def emptyCtx : PCtx := .mk "" [] [] [] []

/-- Python dict assignment `style[key] = value`: replace the value in
place if the key exists, else append a new entry. -/
def styleSet (l : List (String × StyleVal)) (k : String) (v : StyleVal) :
    List (String × StyleVal) :=
  if l.any (fun e => decide (e.1 = k)) then
    l.map (fun e => if e.1 = k then (k, v) else e)
  else l ++ [(k, v)]

/-- Python dict lookup. -/
def styleGet (l : List (String × StyleVal)) (k : String) : Option StyleVal :=
  (l.find? (fun e => decide (e.1 = k))).map (fun e => e.2)

/-- First-defined-wins choice between a child's own value and an
inherited one. -/
def styleOr (a b : Option StyleVal) : Option StyleVal :=
  match a with
  | some v => some v
  | none => b

/-- The style-inheritance loop of `Context.propagate` (src/dtb.py lines
334-336): walk the parent's entries in order and insert each key the
child does not yet have. -/
def mergeStyle (child parent : List (String × StyleVal)) : List (String × StyleVal) :=
  parent.foldl (fun acc kv =>
    if acc.any (fun e => decide (e.1 = kv.1)) then acc else acc ++ [kv]) child

/-- `Context.propagate` (src/dtb.py lines 332-341), restructured so the
recursion is on the child as it is *after* receiving its parent's style
and clip planes: `propagateFrom ps pc` first merges the inherited style
`ps` and appends the inherited clip planes `pc`, then recurses into the
children with the node's now-effective state.  The first argument bounds
the recursion depth; it is always called with a bound exceeding the tree
height, where the function agrees with the unbounded recursion. -/
def propagateFrom : ℕ → List (String × StyleVal) → List PPlane → PCtx → PCtx
  | 0, _, _, t => t
  | fuel + 1, pstyle, pclips, .mk lb style clips prims children =>
    let style' := mergeStyle style pstyle
    let clips' := clips ++ pclips
    .mk lb style' clips' prims (children.map (propagateFrom fuel style' clips'))

/-- `context.propagate()` called on the finished root (src/dtb.py line
492): the root itself receives nothing; each child inherits the root's
style and clip planes. -/
def propagateRoot (fuel : ℕ) : PCtx → PCtx
  | .mk lb style clips prims children =>
    .mk lb style clips prims (children.map (propagateFrom fuel style clips))

def keyPointSize : String := "point_size"

def keyPlaneSize : String := "plane_size"

def keyClipSide : String := "clip_side"

def enumClipSide : List String := ["positive", "negative"]

/-- `_parse_label` (src/dtb.py lines 402-403). -/
def parse_label (st : PState) (c : PCtx) : Except PErr (PCtx × PState) :=
  match expect_string st with
  | .error e => .error e
  | .ok r => .ok (.mk r.1 c.style c.clip_planes c.prims c.children, r.2)

/-- `_parse_point_size` (src/dtb.py lines 406-408). -/
def parse_point_size (st : PState) (c : PCtx) : Except PErr (PCtx × PState) :=
  match expect_float st with
  | .error e => .error e
  | .ok r =>
    .ok (.mk c.label (styleSet c.style keyPointSize (.num r.1)) c.clip_planes
      c.prims c.children, r.2)

/-- `_parse_plane_size` (src/dtb.py lines 411-413). -/
def parse_plane_size (st : PState) (c : PCtx) : Except PErr (PCtx × PState) :=
  match expect_float st with
  | .error e => .error e
  | .ok r =>
    .ok (.mk c.label (styleSet c.style keyPlaneSize (.num r.1)) c.clip_planes
      c.prims c.children, r.2)

/-- `_parse_clip_side` (src/dtb.py lines 416-418). -/
def parse_clip_side (st : PState) (c : PCtx) : Except PErr (PCtx × PState) :=
  match expect_enum enumClipSide st with
  | .error e => .error e
  | .ok r =>
    .ok (.mk c.label (styleSet c.style keyClipSide (.str r.1)) c.clip_planes
      c.prims c.children, r.2)

def toV3 (l : List ℚ) : Vec3 := (l.getD 0 0, l.getD 1 0, l.getD 2 0)

/-- `_parse_clip_plane` (src/dtb.py lines 421-424): a vector3 and a
float, appended to `clip_planes` (not to `primitives`). -/
def parse_clip_plane (st : PState) (c : PCtx) : Except PErr (PCtx × PState) :=
  match expect_vector 3 st with
  | .error e => .error e
  | .ok n =>
    match expect_float n.2 with
    | .error e => .error e
    | .ok d =>
      .ok (.mk c.label c.style (c.clip_planes ++ [⟨toV3 n.1, d.1⟩]) c.prims
        c.children, d.2)

/-- `_parse_point` (src/dtb.py lines 427-429). -/
def parse_point (st : PState) (c : PCtx) : Except PErr (PCtx × PState) :=
  match expect_vector 3 st with
  | .error e => .error e
  | .ok p =>
    .ok (.mk c.label c.style c.clip_planes (c.prims ++ [.point p.1]) c.children, p.2)

/-- `_parse_line` (src/dtb.py lines 432-435). -/
def parse_line (st : PState) (c : PCtx) : Except PErr (PCtx × PState) :=
  match expect_vector 3 st with
  | .error e => .error e
  | .ok a =>
    match expect_vector 3 a.2 with
    | .error e => .error e
    | .ok b =>
      .ok (.mk c.label c.style c.clip_planes (c.prims ++ [.line a.1 b.1]) c.children, b.2)

/-- `_parse_vector` (src/dtb.py lines 438-441). -/
def parse_vector (st : PState) (c : PCtx) : Except PErr (PCtx × PState) :=
  match expect_vector 3 st with
  | .error e => .error e
  | .ok a =>
    match expect_vector 3 a.2 with
    | .error e => .error e
    | .ok b =>
      .ok (.mk c.label c.style c.clip_planes (c.prims ++ [.vec a.1 b.1]) c.children, b.2)

/-- `_parse_plane` (src/dtb.py lines 444-447). -/
def parse_plane (st : PState) (c : PCtx) : Except PErr (PCtx × PState) :=
  match expect_vector 3 st with
  | .error e => .error e
  | .ok n =>
    match expect_float n.2 with
    | .error e => .error e
    | .ok d =>
      .ok (.mk c.label c.style c.clip_planes (c.prims ++ [.plane n.1 d.1]) c.children, d.2)

/-- `_parse_aabb` (src/dtb.py lines 450-453). -/
def parse_aabb (st : PState) (c : PCtx) : Except PErr (PCtx × PState) :=
  match expect_vector 3 st with
  | .error e => .error e
  | .ok a =>
    match expect_vector 3 a.2 with
    | .error e => .error e
    | .ok b =>
      .ok (.mk c.label c.style c.clip_planes (c.prims ++ [.aabb a.1 b.1]) c.children, b.2)

/-- `_parse_projection` (src/dtb.py lines 456-458). -/
def parse_projection (st : PState) (c : PCtx) : Except PErr (PCtx × PState) :=
  match expect_vector 16 st with
  | .error e => .error e
  | .ok m =>
    .ok (.mk c.label c.style c.clip_planes (c.prims ++ [.projection m.1]) c.children, m.2)

/-- The `globals()["_parse_" + token]` dispatch of `loads` (src/dtb.py
lines 481-486): look the keyword up, or fail with `unknown primitive` at
the parser's position (which is already past the keyword). -/
def applyToken (tok : String) (st : PState) (c : PCtx) : Except PErr (PCtx × PState) :=
  if tok = "label" then parse_label st c
  else if tok = "point_size" then parse_point_size st c
  else if tok = "plane_size" then parse_plane_size st c
  else if tok = "clip_side" then parse_clip_side st c
  else if tok = "clip_plane" then parse_clip_plane st c
  else if tok = "point" then parse_point st c
  else if tok = "line" then parse_line st c
  else if tok = "vector" then parse_vector st c
  else if tok = "plane" then parse_plane st c
  else if tok = "aabb" then parse_aabb st c
  else if tok = "projection" then parse_projection st c
  else .error (.syn st.line st.col (.unknownPrimitive tok))

/-- One stack entry of `loads` (src/dtb.py line 473): the suspended
parent context and the parser's line/column recorded when the opening
brace was consumed. -/
abbrev StackEntry := PCtx × ℕ × ℕ

/-- The `while not parser.at_end()` loop of `loads` (src/dtb.py lines
469-492) together with the checks that follow it: on input exhaustion a
non-empty stack is the `unbalanced` opening-brace error citing the
position stored in `stack[0]` (the outermost entry — the stack grows at
the tail here, exactly as the python list does); otherwise the finished
root is propagated.  The iteration bound is always sufficient at the call
site because every loop iteration consumes at least one character. -/
def loadsLoop : ℕ → List StackEntry → PCtx → PState → Except PErr PCtx
  | 0, _, _, st => .error (.syn st.line st.col (.expected "no iteration bound"))
  | fuel + 1, stack, c, st =>
    if st.source.length ≤ st.pos then
      match stack with
      | [] => .ok (propagateRoot (st.source.length + 1) c)
      | e :: _ => .error (.syn st.line st.col (.unbalancedOpen e.2.1 e.2.2))
    else
      match expect_ident st with
      | .error e => .error e
      | .ok r =>
        if r.1 = "\x7b" then
          loadsLoop fuel (stack ++ [(c, r.2.line, r.2.col)]) emptyCtx r.2
        else if r.1 = "\x7d" then
          match stack.getLast? with
          | none => .error (.syn r.2.line r.2.col .unbalancedClose)
          | some e =>
            loadsLoop fuel stack.dropLast
              (.mk e.1.label e.1.style e.1.clip_planes e.1.prims
                (e.1.children ++ [c])) r.2
        else
          match applyToken r.1 r.2 c with
          | .error e => .error e
          | .ok cs => loadsLoop fuel stack cs.1 cs.2

/-- `loads` (src/dtb.py lines 461-494): fresh parser (whose constructor
already skips leading whitespace; the loop's extra initial skip on line
467 is a no-op repeat of it, represented by the same function), empty
stack, fresh root context. -/
def loads (source : String) : Except PErr PCtx :=
  let st := skip_whitespace_and_comments (initP source)
  loadsLoop (st.source.length + 1) [] emptyCtx st

/-!
Theorems.  Helper lemmas come first; each claim then gets exactly one
theorem (with a witness where the statement carries a hypothesis).
-/

/-- Folding two pointwise-equal step functions gives equal results. -/
theorem foldlCongrFun {α β : Type} (l : List β) (f g : α → β → α) (init : α)
    (h : ∀ acc b, f acc b = g acc b) : l.foldl f init = l.foldl g init := by
  induction l generalizing init with
  | nil => rfl
  | cons x xs ih => simp only [List.foldl_cons, h]; exact ih _

/-- The four sign cases of the python clip loop body agree with the
insert-then-keep decomposition used by the spec. -/
theorem clipStepCase (dc dp : ℚ) (cur lp : Vec3) (acc : List Vec3) :
    (if 0 ≤ dc ∧ 0 ≤ dp then acc ++ [cur]
     else if 0 ≤ dc ∧ dp < 0 then acc ++ [lp, cur]
     else if dc < 0 ∧ 0 ≤ dp then acc ++ [lp]
     else acc) =
    acc ++ (if (0 ≤ dp ∧ dc < 0) ∨ (dp < 0 ∧ 0 ≤ dc) then [lp] else []) ++
      (if 0 ≤ dc then [cur] else []) := by
  rcases le_or_lt 0 dc with h1 | h1 <;> rcases le_or_lt 0 dp with h2 | h2
  · simp [h1, h2, h1.not_lt, h2.not_lt]
  · simp [h1, h2, h1.not_lt, not_le.2 h2]
  · simp [h1, h2, not_le.2 h1, h2.not_lt]
  · simp [h1, h2, not_le.2 h1, not_le.2 h2]

theorem clipOnePlane_eq_spec (clip : PPlane) (side : String) (vs : List Vec3) :
    clipOnePlane clip side vs = clipOnePlaneSpec clip side vs := by
  unfold clipOnePlane clipOnePlaneSpec
  apply foldlCongrFun
  intro acc i
  exact clipStepCase _ _ _ _ _

theorem clip_face_eq_spec (vs : List Vec3) (planes : List PPlane) (side : String) :
    clip_face vs planes side = clipFaceSpec vs planes side := by
  unfold clip_face clipFaceSpec
  apply foldlCongrFun
  intro acc p
  exact clipOnePlane_eq_spec _ _ _

/-- C1: the plane-clipping operation is one Sutherland-Hodgman pass per
clip plane in order — each vertex classified by signed distance
`normal · vertex + distance` (normal and distance negated for the
`positive` clip side), non-negative vertices kept, and an interpolated
vertex `prev + t·(cur - prev)` with `t = -dist_prev / (dist_cur - dist_prev)`
inserted at each sign change; an empty final polygon appends nothing to
the mesh, a non-empty one appends exactly one N-gon face over its own
freshly appended vertices. -/
theorem C1_clip_is_sutherland_hodgman (quad : List Vec3) (planes : List PPlane)
    (side : String) (n : Vec3) (d : ℚ) (cps : List PPlane) (st : MeshState) :
    clip_face quad planes side = clipFaceSpec quad planes side ∧
    addPlaneWithQuad quad n d cps side st =
      (if clipFaceSpec quad (clipFilter cps n d) side = [] then st
       else
        { verts := st.verts ++ clipFaceSpec quad (clipFilter cps n d) side,
          edges := st.edges,
          faces := st.faces ++
            [List.range' st.verts.length
              (clipFaceSpec quad (clipFilter cps n d) side).length] }) := by
  refine ⟨clip_face_eq_spec _ _ _, ?_⟩
  unfold addPlaneWithQuad
  simp only [clip_face_eq_spec, List.range'_eq_map_range]

/-- The code's keep-predicate is the negation of the claim's
exclusion-predicate. -/
theorem clipFilterPred (p : PPlane) (n : Vec3) (d : ℚ) :
    (decide (dot p.normal n < 999 / 1000 ∨ 1 / 1000 < |p.distance - d|)) =
    !(decide (999 / 1000 ≤ dot p.normal n ∧ |p.distance - d| ≤ 1 / 1000)) := by
  rw [← decide_not]
  apply decide_eq_decide.2
  constructor
  · rintro (h | h) hc
    · exact absurd hc.1 (not_le.2 h)
    · exact absurd hc.2 (not_le.2 h)
  · intro h
    by_contra hno
    push_neg at hno
    exact h ⟨hno.1, hno.2⟩

/-- C2: the quad is clipped against exactly the planes of the effective
list that are not near-identical to the plane being generated (dot of
normals below 0.999 or distance differing by more than 0.001); in
particular a clip plane matching the plane within that tolerance is
never in the filtered list. -/
theorem C2_self_clip_exclusion (cps : List PPlane) (n : Vec3) (d : ℚ) :
    clipFilter cps n d = cps.filter (fun p =>
      !(decide (999 / 1000 ≤ dot p.normal n ∧ |p.distance - d| ≤ 1 / 1000))) ∧
    ∀ p ∈ cps, 999 / 1000 ≤ dot p.normal n → |p.distance - d| ≤ 1 / 1000 →
      p ∉ clipFilter cps n d := by
  constructor
  · exact List.filter_congr (fun p _ => clipFilterPred p n d)
  · intro p _ h1 h2 hmem
    have := (List.mem_filter.1 hmem).2
    rw [clipFilterPred] at this
    simp only [Bool.not_eq_true', decide_eq_false_iff_not] at this
    exact this ⟨h1, h2⟩

/-- Witness for C2 at a concrete matching plane: a plane aligned with one
of its own clip planes is excluded from the filter. -/
theorem C2_self_clip_exclusion_witness :
    (⟨(1, 0, 0), 5⟩ : PPlane) ∉ clipFilter [⟨(1, 0, 0), 5⟩] (1, 0, 0) 5 :=
  (C2_self_clip_exclusion [⟨(1, 0, 0), 5⟩] (1, 0, 0) 5).2 ⟨(1, 0, 0), 5⟩
    (by simp) (by norm_num [dot]) (by norm_num)

/-- C9: generating a Projection primitive computes the six frustum-plane
vectors by the column combinations of the row-major matrix but emits no
geometry — the mesh is unchanged. -/
theorem C9_projection_emits_nothing (m : List ℚ) (st : MeshState) :
    add_projection m st = st ∧
    projectionPlanes m =
      [(m.getD 0 0 - m.getD 3 0, m.getD 4 0 - m.getD 7 0,
        m.getD 8 0 - m.getD 11 0, m.getD 12 0 - m.getD 15 0),
       (-m.getD 0 0 - m.getD 3 0, -m.getD 4 0 - m.getD 7 0,
        -m.getD 8 0 - m.getD 11 0, -m.getD 12 0 - m.getD 15 0),
       (m.getD 1 0 - m.getD 3 0, m.getD 5 0 - m.getD 7 0,
        m.getD 9 0 - m.getD 11 0, m.getD 13 0 - m.getD 15 0),
       (-m.getD 1 0 - m.getD 3 0, -m.getD 5 0 - m.getD 7 0,
        -m.getD 9 0 - m.getD 11 0, -m.getD 13 0 - m.getD 15 0),
       (m.getD 2 0 - m.getD 3 0, m.getD 6 0 - m.getD 7 0,
        m.getD 10 0 - m.getD 11 0, m.getD 14 0 - m.getD 15 0),
       (-m.getD 2 0 - m.getD 3 0, -m.getD 6 0 - m.getD 7 0,
        -m.getD 10 0 - m.getD 11 0, -m.getD 14 0 - m.getD 15 0)] :=
  ⟨rfl, rfl⟩

/-- A primitive-generation call, carrying the arguments the corresponding
`BlenderCreator` method receives (the plane call carries the built quad
and the context's clip state, as in `addPlaneWithQuad`). -/
inductive GenOp where
  | point (point_size : ℚ) (position : Vec3)
  | line (a b : Vec3)
  | vec (position direction : Vec3)
  | plane (quad : List Vec3) (normal : Vec3) (distance : ℚ)
      (clips : List PPlane) (clip_side : String)
  | aabb (aabb_min aabb_max : Vec3)
  | projection (m : List ℚ)

def applyGenOp (st : MeshState) : GenOp → MeshState
  | .point ps p => add_point ps p st
  | .line a b => add_line a b st
  | .vec p d => add_vector p d st
  | .plane q n d cl side => addPlaneWithQuad q n d cl side st
  | .aabb a b => add_aabb a b st
  | .projection m => add_projection m st

/-- Every vertex index in an edge pair or face tuple is in range. -/
def meshValid (st : MeshState) : Prop :=
  (∀ e ∈ st.edges, e.1 < st.verts.length ∧ e.2 < st.verts.length) ∧
  (∀ f ∈ st.faces, ∀ i ∈ f, i < st.verts.length)

theorem applyGenOp_valid (st : MeshState) (op : GenOp) (h : meshValid st) :
    meshValid (applyGenOp st op) := by
  obtain ⟨hE, hF⟩ := h
  cases op with
  | point ps p =>
    constructor
    · intro e he
      simp only [applyGenOp, add_point] at he ⊢
      have := hE e he
      simp only [List.length_append, List.length_cons, List.length_nil]
      omega
    · intro f hf i hi
      simp only [applyGenOp, add_point, List.mem_append] at hf
      simp only [applyGenOp, add_point, List.length_append, List.length_cons,
        List.length_nil]
      rcases hf with hf | hf
      · have := hF f hf i hi
        omega
      · fin_cases hf <;> fin_cases hi <;> omega
  | line a b =>
    constructor
    · intro e he
      simp only [applyGenOp, add_line, List.mem_append] at he
      simp only [applyGenOp, add_line, List.length_append, List.length_cons,
        List.length_nil]
      rcases he with he | he
      · have := hE e he
        omega
      · fin_cases he
        simp only []
        omega
    · intro f hf i hi
      simp only [applyGenOp, add_line] at hf ⊢
      have := hF f hf i hi
      simp only [List.length_append, List.length_cons, List.length_nil]
      omega
  | vec p d =>
    constructor
    · intro e he
      simp only [applyGenOp, add_vector, List.mem_append] at he
      simp only [applyGenOp, add_vector, List.length_append, List.length_cons,
        List.length_nil]
      rcases he with he | he
      · have := hE e he
        omega
      · fin_cases he
        simp only []
        omega
    · intro f hf i hi
      simp only [applyGenOp, add_vector] at hf ⊢
      have := hF f hf i hi
      simp only [List.length_append, List.length_cons, List.length_nil]
      omega
  | plane q n d cl side =>
    simp only [applyGenOp, addPlaneWithQuad]
    split
    · exact ⟨hE, hF⟩
    · constructor
      · intro e he
        have := hE e he
        simp only [List.length_append]
        omega
      · intro f hf i hi
        simp only [List.mem_append, List.mem_singleton] at hf
        simp only [List.length_append]
        rcases hf with hf | hf
        · have := hF f hf i hi
          omega
        · subst hf
          simp only [List.mem_map, List.mem_range] at hi
          obtain ⟨j, hj, rfl⟩ := hi
          omega
  | aabb a b =>
    constructor
    · intro e he
      simp only [applyGenOp, add_aabb, List.mem_append] at he
      simp only [applyGenOp, add_aabb, List.length_append, List.length_cons,
        List.length_nil]
      rcases he with he | he
      · have := hE e he
        omega
      · fin_cases he <;> simp only [] <;> omega
    · intro f hf i hi
      simp only [applyGenOp, add_aabb] at hf ⊢
      have := hF f hf i hi
      simp only [List.length_append, List.length_cons, List.length_nil]
      omega
  | projection m => exact ⟨hE, hF⟩

theorem foldl_applyGenOp_valid (ops : List GenOp) :
    ∀ st : MeshState, meshValid st → meshValid (ops.foldl applyGenOp st) := by
  induction ops with
  | nil => intro st h; exact h
  | cons op rest ih =>
    intro st h
    exact ih _ (applyGenOp_valid st op h)

/-- C10: after any sequence of primitive-generation operations starting
from the empty mesh, every vertex index appearing in an edge or a face is
strictly below the number of vertices. -/
theorem C10_mesh_indices_in_range (ops : List GenOp) :
    meshValid (ops.foldl applyGenOp emptyMesh) :=
  foldl_applyGenOp_valid ops emptyMesh
    ⟨fun e he => absurd he (List.not_mem_nil e), fun f hf => absurd hf (List.not_mem_nil f)⟩

/-- Lookup in a merged style: the child's own value wins; an inherited
entry is visible exactly for keys the child does not define. -/
theorem styleGet_mergeStyle (parent : List (String × StyleVal)) :
    ∀ (child : List (String × StyleVal)) (k : String),
      styleGet (mergeStyle child parent) k =
        styleOr (styleGet child k) (styleGet parent k) := by
  induction parent with
  | nil =>
    intro child k
    show styleGet child k = styleOr (styleGet child k) (styleGet [] k)
    cases hx : styleGet child k <;> simp [styleOr, styleGet]
  | cons kv rest ih =>
    intro child k
    by_cases hany : child.any (fun e => decide (e.1 = kv.1)) = true
    · have hstep : mergeStyle child (kv :: rest) = mergeStyle child rest := by
        simp only [mergeStyle, List.foldl_cons, hany, if_true]
      rw [hstep, ih child k]
      by_cases hk : k = kv.1
      · have hsome : (child.find? (fun e => decide (e.1 = k))).isSome := by
          rw [List.find?_isSome]
          obtain ⟨e, he, hpe⟩ := List.any_eq_true.1 hany
          exact ⟨e, he, by simpa [hk] using hpe⟩
        obtain ⟨v, hv⟩ := Option.isSome_iff_exists.1 hsome
        simp [styleGet, hv, styleOr]
      · have hcons : List.find? (fun e => decide (e.1 = k)) (kv :: rest) =
            List.find? (fun e => decide (e.1 = k)) rest :=
          List.find?_cons_of_neg _ (by
            simp only [decide_eq_true_eq]
            exact fun h => hk h.symm)
        unfold styleGet
        rw [hcons]
    · have hstep : mergeStyle child (kv :: rest) = mergeStyle (child ++ [kv]) rest := by
        simp only [mergeStyle, List.foldl_cons, hany, if_false, Bool.false_eq_true]
      rw [hstep, ih (child ++ [kv]) k]
      have hgetapp : styleGet (child ++ [kv]) k =
          styleOr (styleGet child k) (styleGet [kv] k) := by
        simp only [styleGet, List.find?_append]
        cases child.find? (fun e => decide (e.1 = k)) <;> simp [Option.or, styleOr]
      rw [hgetapp]
      by_cases hk : k = kv.1
      · have hfind : List.find? (fun e => decide (e.1 = k)) child = none := by
          rw [List.find?_eq_none]
          intro e he
          simp only [decide_eq_true_eq]
          intro hek
          exact hany (List.any_eq_true.2 ⟨e, he, by simp [hek, hk]⟩)
        have hkvp : (fun (e : String × StyleVal) => decide (e.1 = k)) kv = true := by
          rw [hk]
          simp
        have hkv : styleGet [kv] k = some kv.2 := by
          unfold styleGet
          rw [@List.find?_cons_of_pos _ (fun e => decide (e.1 = k)) kv [] hkvp]
          rfl
        have hkvcons : styleGet (kv :: rest) k = some kv.2 := by
          unfold styleGet
          rw [@List.find?_cons_of_pos _ (fun e => decide (e.1 = k)) kv rest hkvp]
          rfl
        have hchild : styleGet child k = none := by
          unfold styleGet
          rw [hfind]
          rfl
        rw [hchild, hkv, hkvcons]
        simp [styleOr]
      · have hkvp : ¬ (fun (e : String × StyleVal) => decide (e.1 = k)) kv = true := by
          simp only [decide_eq_true_eq]
          exact fun h => hk h.symm
        have hkv : styleGet [kv] k = none := by
          unfold styleGet
          rw [@List.find?_cons_of_neg _ (fun e => decide (e.1 = k)) kv [] hkvp]
          rfl
        have hkvcons : styleGet (kv :: rest) k = styleGet rest k := by
          unfold styleGet
          rw [@List.find?_cons_of_neg _ (fun e => decide (e.1 = k)) kv rest hkvp]
        rw [hkv, hkvcons]
        cases styleGet child k <;> simp [styleOr]

/-- C3: after the top-down propagation pass, every context's style keeps
its own values (inherited entries fill only unset keys), and its
clip-plane list is its own declarations followed by its parent's
effective list, order-preserving, with no de-duplication.  Stated for
`propagateFrom`, which is how the pass reaches every context of the tree
(the last conjunct is the root call made by `loads`). -/
theorem C3_propagation_invariants (fuel : ℕ) (ps : List (String × StyleVal))
    (pc : List PPlane) (t : PCtx) :
    (propagateFrom (fuel + 1) ps pc t).style = mergeStyle t.style ps ∧
    (propagateFrom (fuel + 1) ps pc t).clip_planes = t.clip_planes ++ pc ∧
    (propagateFrom (fuel + 1) ps pc t).children =
      t.children.map
        (propagateFrom fuel (mergeStyle t.style ps) (t.clip_planes ++ pc)) ∧
    (∀ k, styleGet (mergeStyle t.style ps) k =
      styleOr (styleGet t.style k) (styleGet ps k)) ∧
    (propagateRoot fuel t).children =
      t.children.map (propagateFrom fuel t.style t.clip_planes) := by
  obtain ⟨lb, sty, cl, pr, ch⟩ := t
  exact ⟨rfl, rfl, rfl, fun k => styleGet_mergeStyle ps sty k, rfl⟩

def inFloatSpaced : String := "+ 5"

def inFloatTrunc : String := "123..456"

def inFloatExp : String := "1.0e-6"

def restTrunc : String := ".456"

def restTruncClaimed : String := "..456"

/-- C5: the FLOAT pattern itself matches a sign followed by embedded
spaces and digits, but `float()` on that matched text raises `ValueError`
— an exception that is not the positioned parse-error kind — so
`expect_float` does not return the denoted value of every pattern match,
and not every failure is a parse error.  This evaluates the code at the
failing input `"+ 5"`. -/
theorem C5_value_error_escapes :
    floatMatch inFloatSpaced.toList = some inFloatSpaced.toList ∧
    expect_float (initP inFloatSpaced) = .error .valueError :=
  ⟨by decide, by decide⟩

/-- C6 counterexample: parsing `"123..456"` returns the value 123 but the
matched span is `"123."` — the first dot is consumed — so the unconsumed
remainder is `".456"`, not the `"..456"` the claim states. -/
theorem C6_counterexample :
    floatAndRest inFloatTrunc = some (123, restTrunc) ∧ restTrunc ≠ restTruncClaimed :=
  ⟨by decide, by decide⟩

/-- C6 amended: `"1.0e-6"` parses to the exact value 1/1000000
(= 0.000001); `"123..456"` parses to 123, consuming `"123."` and leaving
`".456"` unconsumed for subsequent parsing. -/
theorem C6_amended_float_roundtrip :
    floatAndRest inFloatExp = some (mkRat 1 1000000, "") ∧
    mkRat 1 1000000 = (1 : ℚ) / 1000000 ∧
    floatAndRest inFloatTrunc = some (123, restTrunc) :=
  ⟨by decide, by rw [Rat.mkRat_eq_div]; norm_num, by decide⟩

def inVecBare : String := "0 0 1"

def inVecParen : String := "(0 0 1)"

def inVecOpen : String := "(0 0 1"

def inVecShort : String := "0 1"

/-- C7: `expect_vector dim` accepts an optional leading parenthesis —
when absent it reads exactly `dim` floats with no closing token, when
present a closing parenthesis is mandatory after the `dim` floats (its
absence is a parse error); both `"0 0 1"` and `"(0 0 1)"` give (0,0,1),
and reading 3 floats when only 2 are available is a parse error. -/
theorem C7_expect_vector_optional_paren :
    (∀ (dim : ℕ) (st : PState), accept_lparen st = none →
      expect_vector dim st = expectFloats dim st) ∧
    (∀ (dim : ℕ) (st st1 : PState), accept_lparen st = some st1 →
      expect_vector dim st =
        (match expectFloats dim st1 with
         | .error e => .error e
         | .ok vst =>
           match expect_rparen vst.2 with
           | .error e => .error e
           | .ok st3 => .ok (vst.1, st3))) ∧
    vecValue 3 inVecBare = .ok [0, 0, 1] ∧
    vecValue 3 inVecParen = .ok [0, 0, 1] ∧
    vecValue 3 inVecOpen = .error (.syn 1 7 (.expected descRparen)) ∧
    vecValue 3 inVecShort = .error (.syn 1 4 (.expected descFloat)) := by
  refine ⟨?_, ?_, by decide, by decide, by decide, by decide⟩
  · intro dim st h
    unfold expect_vector
    rw [h]
  · intro dim st st1 h
    unfold expect_vector
    rw [h]

/-- Witness for C7: on the parenthesis-free input the vector read is the
bare float sequence read. -/
theorem C7_expect_vector_optional_paren_witness :
    expect_vector 3 (initP inVecBare) = expectFloats 3 (initP inVecBare) :=
  C7_expect_vector_optional_paren.1 3 (initP inVecBare) (by decide)

/-- Newline count up to `q + 1` adds one exactly when position `q` holds
a newline. -/
theorem nlCount_succ (s : List Char) (q : ℕ) :
    nlCount s (q + 1) =
      nlCount s q + (if q < s.length ∧ s.getD q ' ' = '\n' then 1 else 0) := by
  unfold nlCount
  rw [List.take_succ, List.count_append]
  by_cases h : q < s.length
  · have hg : s.getD q ' ' = s[q] := by
      rw [List.getD_eq_getElem?_getD, List.getElem?_eq_getElem h]
      rfl
    rw [hg, List.getElem?_eq_getElem h, Option.toList_some, List.count_cons,
      List.count_nil]
    by_cases hnl : s[q] = '\n'
    · simp [hnl, h]
    · simp [hnl, h]
  · rw [List.getElem?_eq_none (le_of_not_lt h)]
    simp [h]

theorem lineStart_le (s : List Char) : ∀ p : ℕ, lineStart s p ≤ p := by
  intro p
  induction p with
  | zero => simp [lineStart]
  | succ q ih =>
    rw [lineStart]
    split
    · exact le_refl _
    · exact le_trans ih (Nat.le_succ q)

theorem lineStart_fix (s : List Char) : ∀ p : ℕ, lineStart s (lineStart s p) = lineStart s p := by
  intro p
  induction p with
  | zero => simp [lineStart]
  | succ q ih =>
    rw [lineStart]
    split
    · rename_i h
      rw [lineStart, if_pos h]
    · exact ih

/-- There is no newline between the current line's start and the cursor. -/
theorem no_nl_after_lineStart (s : List Char) :
    ∀ p j : ℕ, lineStart s p ≤ j → j < p → j < s.length → s.getD j ' ' ≠ '\n' := by
  intro p
  induction p with
  | zero => omega
  | succ q ih =>
    intro j h1 h2 h3
    rw [lineStart] at h1
    by_cases hc : q < s.length ∧ s.getD q ' ' = '\n'
    · rw [if_pos hc] at h1
      omega
    · rw [if_neg hc] at h1
      rcases Nat.lt_succ_iff_lt_or_eq.1 h2 with h | h
      · exact ih j h1 h h3
      · subst h
        exact fun hnl => hc ⟨h3, hnl⟩

/-- If no newline lies in `[a, a + d)`, the line start at `a + d` is the
line start at `a` (stated for a position that is its own line start). -/
theorem lineStart_const (s : List Char) (a : ℕ) (hfix : lineStart s a = a) :
    ∀ d : ℕ, (∀ j, a ≤ j → j < a + d → j < s.length → s.getD j ' ' ≠ '\n') →
      lineStart s (a + d) = a := by
  intro d
  induction d with
  | zero => intro _; simpa using hfix
  | succ e ih =>
    intro h
    have : a + (e + 1) = (a + e) + 1 := by omega
    rw [this, lineStart]
    have hcond : ¬ (a + e < s.length ∧ s.getD (a + e) ' ' = '\n') := by
      rintro ⟨hl, hnl⟩
      exact h (a + e) (Nat.le_add_right a e) (by omega) hl hnl
    rw [if_neg hcond]
    exact ih (fun j h1 h2 h3 => h j h1 (by omega) h3)

/-- If no newline lies in `[a, a + d)`, the newline count at `a + d` is
the newline count at `a`. -/
theorem nlCount_const (s : List Char) (a : ℕ) :
    ∀ d : ℕ, (∀ j, a ≤ j → j < a + d → j < s.length → s.getD j ' ' ≠ '\n') →
      nlCount s (a + d) = nlCount s a := by
  intro d
  induction d with
  | zero => intro _; rfl
  | succ e ih =>
    intro h
    have : a + (e + 1) = (a + e) + 1 := by omega
    rw [this, nlCount_succ]
    have hcond : ¬ (a + e < s.length ∧ s.getD (a + e) ' ' = '\n') := by
      rintro ⟨hl, hnl⟩
      exact h (a + e) (Nat.le_add_right a e) (by omega) hl hnl
    rw [if_neg hcond]
    simpa using ih (fun j h1 h2 h3 => h j h1 (by omega) h3)

theorem findNlAux_none_spec (s : List Char) (b : ℕ) :
    ∀ (fuel a : ℕ), b ≤ a + fuel → findNlAux s b fuel a = none →
      ∀ j, a ≤ j → j < b → j < s.length → s.getD j ' ' ≠ '\n' := by
  intro fuel
  induction fuel with
  | zero => intro a hb _ j h1 h2 _; omega
  | succ f ih =>
    intro a hb hnone j h1 h2 h3
    rw [findNlAux] at hnone
    by_cases hc : a < b ∧ a < s.length
    · rw [if_pos hc] at hnone
      by_cases hnl : s.getD a ' ' = '\n'
      · rw [if_pos hnl] at hnone
        exact Option.noConfusion hnone
      · rw [if_neg hnl] at hnone
        rcases Nat.eq_or_lt_of_le h1 with h | h
        · subst h; exact hnl
        · exact ih (a + 1) (by omega) hnone j h h2 h3
    · exact absurd ⟨by omega, by omega⟩ hc

theorem findNlAux_some_spec (s : List Char) (b : ℕ) :
    ∀ (fuel a j : ℕ), findNlAux s b fuel a = some j →
      a ≤ j ∧ j < b ∧ j < s.length ∧ s.getD j ' ' = '\n' ∧
        (∀ i, a ≤ i → i < j → i < s.length → s.getD i ' ' ≠ '\n') := by
  intro fuel
  induction fuel with
  | zero => intro a j h; exact absurd h (by simp [findNlAux])
  | succ f ih =>
    intro a j hsome
    rw [findNlAux] at hsome
    by_cases hc : a < b ∧ a < s.length
    · rw [if_pos hc] at hsome
      by_cases hnl : s.getD a ' ' = '\n'
      · rw [if_pos hnl] at hsome
        obtain rfl : a = j := by injection hsome
        exact ⟨le_refl a, hc.1, hc.2, hnl, fun i hh1 hh2 _ => by omega⟩
      · rw [if_neg hnl] at hsome
        obtain ⟨h1, h2, h3, h4, h5⟩ := ih (a + 1) j hsome
        refine ⟨by omega, h2, h3, h4, ?_⟩
        intro i hi1 hi2 hi3
        rcases Nat.eq_or_lt_of_le hi1 with h | h
        · subst h; exact hnl
        · exact h5 i h hi2 hi3
    · rw [if_neg hc] at hsome
      exact Option.noConfusion hsome

/-- Newlines before the current line start are exactly the newlines
before the cursor. -/
theorem nlCount_lineStart (s : List Char) (p : ℕ) :
    nlCount s (lineStart s p) = nlCount s p := by
  have hls := lineStart_le s p
  have h := nlCount_const s (lineStart s p) (p - lineStart s p)
    (fun j hj1 hj2 hj3 => no_nl_after_lineStart s p j hj1 (by omega) hj3)
  rw [show lineStart s p + (p - lineStart s p) = p by omega] at h
  exact h.symm

/-- Correctness of the newline-scanning loop of `advance`: entered at a
line start with a line number consistent with the prefix newline count,
it lands on the line start of `stop` with the line number consistent
there. -/
theorem advLoopAux_spec (s : List Char) (stop : ℕ) :
    ∀ (fuel a line base : ℕ), lineStart s a = a → a ≤ stop → stop ≤ a + fuel →
      line = base + nlCount s a →
      advLoopAux s stop fuel a line = (lineStart s stop, base + nlCount s stop) := by
  intro fuel
  induction fuel with
  | zero =>
    intro a line base hfix h1 h2 hline
    obtain rfl : a = stop := by omega
    simp [advLoopAux, hfix, hline]
  | succ f ih =>
    intro a line base hfix h1 h2 hline
    rw [advLoopAux]
    cases hfind : findNl s a stop with
    | none =>
      have hno : ∀ j, a ≤ j → j < stop → j < s.length → s.getD j ' ' ≠ '\n' :=
        findNlAux_none_spec s stop (stop - a) a (by omega) hfind
      have hls : lineStart s stop = a := by
        have := lineStart_const s a hfix (stop - a)
          (fun j hj1 hj2 hj3 => hno j hj1 (by omega) hj3)
        rwa [show a + (stop - a) = stop by omega] at this
      have hnc : nlCount s stop = nlCount s a := by
        have := nlCount_const s a (stop - a)
          (fun j hj1 hj2 hj3 => hno j hj1 (by omega) hj3)
        rwa [show a + (stop - a) = stop by omega] at this
      rw [hls, hnc, hline]
    | some j =>
      obtain ⟨hj1, hj2, hj3, hj4, hj5⟩ := findNlAux_some_spec s stop (stop - a) a j hfind
      have hfix' : lineStart s (j + 1) = j + 1 := by
        rw [lineStart, if_pos ⟨hj3, hj4⟩]
      have hncj : nlCount s j = nlCount s a := by
        have := nlCount_const s a (j - a) (fun i hi1 hi2 hi3 => hj5 i hi1 (by omega) hi3)
        rwa [show a + (j - a) = j by omega] at this
      have hncj1 : nlCount s (j + 1) = nlCount s a + 1 := by
        rw [nlCount_succ, if_pos ⟨hj3, hj4⟩, hncj]
      exact ih (j + 1) (line + 1) base hfix' (by omega) (by omega) (by omega)

/-- The state the parser reaches at offset `p` is the reference state:
line = newlines before `p` plus one, `line_pos` = current line start,
column = offset since the line start plus one.  `advance` preserves this
for any step size. -/
theorem advance_refState (s : List Char) (p n : ℕ) :
    advance n (refState s p) = refState s (p + n) := by
  show advance n ⟨s, p, lineStart s p, 1 + nlCount s p, p - lineStart s p + 1⟩ =
    refState s (p + n)
  unfold advance
  simp only []
  rw [advLoopAux_spec s (p + n) (p + n + 1 - lineStart s p) (lineStart s p)
    (1 + nlCount s p) 1 (lineStart_fix s p)
    (le_trans (lineStart_le s p) (Nat.le_add_right p n))
    (by have := lineStart_le s p; omega)
    (by rw [nlCount_lineStart])]
  rfl

def inLineCol : String := "\n\n\n#comment\nabc"

/-- C8: line and column are tracked incrementally by `advance` — the
cursor state at offset `p` is always the reference state whose line is
one more than the newlines consumed, whose `line_pos` is the current
line's start, and whose column is the offset since that start plus one,
and `advance` maps the reference state at `p` to the reference state at
`p + n` for every step; concretely, on three newlines, a comment line and
`abc`, consuming the identifier leaves line 5, column 4. -/
theorem C8_line_col_tracking :
    (∀ (s : List Char) (p n : ℕ), advance n (refState s p) = refState s (p + n)) ∧
    identLineCol inLineCol = some ("abc", 5, 4) :=
  ⟨advance_refState, by decide⟩

def bIn1 : String := "\x7b\x7d"

def bIn2 : String := "\x7b\x7b\x7d\x7d"

def bIn3 : String := "\x7b\x7b\x7b\x7d\x7d\x7d"

def bIn4 : String := "\x7d"

def bIn5 : String := "\x7b"

def bIn6 : String := "\x7b\x7b\x7d"

def bIn7 : String := "\x7b\x7d\x7d"

def isOkE {ε α : Type} : Except ε α → Bool
  | .ok _ => true
  | .error _ => false

/-- The position an `unbalanced` opening-brace error cites. -/
def citedOpen : Except PErr PCtx → Option (ℕ × ℕ)
  | .error (.syn _ _ (.unbalancedOpen l c)) => some (l, c)
  | _ => none

/-- C4 (amended): the parse loop enforces brace balance — a closing brace
with an empty stack is an `unbalanced` closing-brace error, end of input
with a non-empty stack is an `unbalanced` opening-brace error citing the
parser position recorded for the outermost unmatched brace, which is the
position just after consuming that brace (the start of the token
following it), not the brace's own position; the three balanced inputs
parse and the four unbalanced ones fail. -/
theorem C4_brace_balance :
    (∀ (fuel : ℕ) (c root : PCtx) (st : PState) (ln co : ℕ)
      (rest : List StackEntry), st.source.length ≤ st.pos →
      loadsLoop (fuel + 1) ((root, ln, co) :: rest) c st =
        .error (.syn st.line st.col (.unbalancedOpen ln co))) ∧
    (∀ (fuel : ℕ) (c : PCtx) (st : PState) (r : String × PState),
      expect_ident st = .ok r → r.1 = "\x7d" → st.pos < st.source.length →
      loadsLoop (fuel + 1) [] c st =
        .error (.syn r.2.line r.2.col .unbalancedClose)) ∧
    isOkE (loads bIn1) = true ∧ isOkE (loads bIn2) = true ∧
    isOkE (loads bIn3) = true ∧
    loads bIn4 = .error (.syn 1 2 .unbalancedClose) ∧
    loads bIn5 = .error (.syn 1 2 (.unbalancedOpen 1 2)) ∧
    loads bIn6 = .error (.syn 1 4 (.unbalancedOpen 1 2)) ∧
    loads bIn7 = .error (.syn 1 4 .unbalancedClose) := by
  refine ⟨?_, ?_, rfl, rfl, rfl, rfl, rfl, rfl, rfl⟩
  · intro fuel c root st ln co rest hend
    simp only [loadsLoop]
    rw [if_pos hend]
  · intro fuel c st r hident hbrace hlt
    simp only [loadsLoop, hident]
    rw [if_neg (by omega : ¬ st.source.length ≤ st.pos), hbrace]
    simp

/-- C4 counterexample: on the input consisting of a single opening brace
— which occupies line 1, column 1 — the unbalanced-brace error cites
position (1,2), the parser position just after consuming the brace, so
the claim that the error cites the source position of the outermost
unmatched brace fails. -/
theorem C4_counterexample :
    citedOpen (loads bIn5) = some (1, 2) ∧ citedOpen (loads bIn5) ≠ some (1, 1) :=
  ⟨rfl, by decide⟩

/-- Witness for C4: the end-of-input case with a non-empty stack at a
concrete state. -/
theorem C4_brace_balance_witness :
    loadsLoop 1 [(emptyCtx, 1, 2)] emptyCtx ⟨['\x7b'], 1, 0, 1, 2⟩ =
      .error (.syn 1 2 (.unbalancedOpen 1 2)) :=
  C4_brace_balance.1 0 emptyCtx emptyCtx ⟨['\x7b'], 1, 0, 1, 2⟩ 1 2 [] (by decide)
